import Mathlib

/-
Verification of the XernEngine object-pooling and particle-emission core.

Source files embedded here:
  * `ObjectPool` (generic reusable-object pool; `src/unnamed/part_012`)
  * `ParticleEmitter` / `Particle` (`src/src/components/particleSystem.js`)

Modelling conventions:
  * JS object identity is modelled by natural-number ids; the pool factory
    (`() => new Particle()` / `() => ({...})`) allocates a fresh id per call,
    tracked by the `nextId` counter.  The JS array `this.pool` (used as a
    stack via `push`/`pop`) is a `List ℕ` pushed/popped at its end; the JS
    `Set` `this.active` is a `Finset ℕ`.
  * JS numbers are rationals (`ℚ`); loop counters (`maxParticles`, `burst`)
    are integers (`ℤ`), matching the integer-valued configurations the spec
    discusses.  `Math.random`, `Math.PI`, `Math.cos` and `Math.sin` are
    uninterpreted parameters bundled in `JsEnv`; each `Math.random()` call
    consumes the next element of the `rand` stream via the `seed` counter.
  * The ghost fields `created`, `resets` and `emitCalls` count factory
    invocations, reset-callback invocations and `emit()` invocations; they
    exist only to state the spec's counting properties and are read by no
    operation.
-/

/-! ## Object pool (`ObjectPool` in src/unnamed/part_012) -/

/-- State of an `ObjectPool` whose factory returns a fresh object on every
call.  `free` is the JS array `this.pool` (stack: push/pop at the end),
`active` the JS `Set` `this.active`.  `nextId` is the allocator for fresh
object identities; `created` and `resets` are ghost counters of factory and
reset-callback invocations. -/
structure ObjectPool where
  free : List ℕ
  active : Finset ℕ
  nextId : ℕ
  created : ℕ
  resets : ℕ
deriving DecidableEq

/-- The `ObjectPool` constructor: eagerly create `initialSize` instances and
push them on the free list. -/
def ObjectPool.make (initialSize : ℕ) : ObjectPool :=
  { free := List.range initialSize
    active := ∅
    nextId := initialSize
    created := initialSize
    resets := 0 }

/-- `acquire()`: pop the free list if non-empty, otherwise invoke the
factory (allocate a fresh id); add the object to the active set and return
it. -/
def ObjectPool.acquire (s : ObjectPool) : ℕ × ObjectPool :=
  match s.free.getLast? with
  | some obj =>
      (obj, { s with free := s.free.dropLast, active := insert obj s.active })
  | none =>
      (s.nextId,
        { s with nextId := s.nextId + 1, created := s.created + 1,
                 active := insert s.nextId s.active })

/-- `release(obj)`: if `obj` is active, remove it from the active set, apply
the reset callback (counted by the `resets` ghost) and push it on the free
list; otherwise do nothing. -/
def ObjectPool.release (obj : ℕ) (s : ObjectPool) : ObjectPool :=
  if obj ∈ s.active then
    { s with active := s.active.erase obj
             resets := s.resets + 1
             free := s.free ++ [obj] }
  else s

/-- Result record of `getStats()`. -/
structure PoolStats where
  available : ℕ
  active : ℕ
  total : ℕ
deriving DecidableEq

/-- `getStats()`: sizes of the two collections; `total` is computed as
`pool.length + active.size` exactly as in the source. -/
def ObjectPool.getStats (s : ObjectPool) : PoolStats :=
  { available := s.free.length
    active := s.active.card
    total := s.free.length + s.active.card }

/-- A pool operation: the claims quantify over sequences of `acquire()` and
`release(obj)` calls (no `clear()`/`releaseAll()`). -/
inductive PoolOp where
  | acquire : PoolOp
  | release (obj : ℕ) : PoolOp
deriving DecidableEq

/-- Perform one pool operation (discarding `acquire`'s return value). -/
def ObjectPool.runOp (s : ObjectPool) : PoolOp → ObjectPool
  | .acquire => s.acquire.2
  | .release obj => ObjectPool.release obj s

/-- Perform a sequence of pool operations. -/
def ObjectPool.run (s : ObjectPool) (ops : List PoolOp) : ObjectPool :=
  ops.foldl ObjectPool.runOp s

/-- Pool representation invariant: the free list has no duplicates and is
disjoint from the active set, all ids are below the allocator, and the two
collections together hold exactly the objects created so far. -/
def PoolInv (s : ObjectPool) : Prop :=
  s.free.Nodup ∧ (∀ x ∈ s.free, x ∉ s.active) ∧
    (∀ x ∈ s.free, x < s.nextId) ∧ (∀ x ∈ s.active, x < s.nextId) ∧
    s.free.length + s.active.card = s.created

lemma poolInv_make (n : ℕ) : PoolInv (ObjectPool.make n) := by
  refine ⟨List.nodup_range _, ?_, ?_, ?_, ?_⟩ <;>
    simp [ObjectPool.make, List.mem_range]

lemma acquire_spec (s : ObjectPool) (hInv : PoolInv s) :
    s.acquire.1 ∉ s.active ∧ PoolInv s.acquire.2 ∧
      s.acquire.2.active = insert s.acquire.1 s.active := by
  obtain ⟨hnd, hdisj, hfb, hab, hcnt⟩ := hInv
  rcases List.eq_nil_or_concat s.free with hfree | ⟨l, a, hfree⟩
  · have hget : s.free.getLast? = none := by simp [hfree]
    have hfst : s.acquire.1 = s.nextId := by
      simp [ObjectPool.acquire, hget]
    have hsnd : s.acquire.2 =
        { s with nextId := s.nextId + 1, created := s.created + 1,
                 active := insert s.nextId s.active } := by
      simp [ObjectPool.acquire, hget]
    refine ⟨?_, ?_, ?_⟩
    · rw [hfst]; intro hmem; exact absurd (hab _ hmem) (lt_irrefl _)
    · rw [hsnd]
      refine ⟨hnd, ?_, ?_, ?_, ?_⟩
      · intro x hx
        simp only [Finset.mem_insert, not_or]
        exact ⟨fun h => absurd (h ▸ hfb x hx) (by simp [hfree] at hx),
          hdisj x hx⟩
      · intro x hx; exact lt_trans (hfb x hx) (Nat.lt_succ_self _)
      · intro x hx
        rcases Finset.mem_insert.mp hx with rfl | hx
        · exact Nat.lt_succ_self _
        · exact lt_trans (hab x hx) (Nat.lt_succ_self _)
      · have hnotmem : s.nextId ∉ s.active := fun h => absurd (hab _ h) (lt_irrefl _)
        simp only [hfree] at hcnt ⊢
        rw [Finset.card_insert_of_not_mem hnotmem]
        simp at hcnt ⊢
        omega
    · rw [hfst, hsnd]
  · rw [List.concat_eq_append] at hfree
    have hget : s.free.getLast? = some a := by simp [hfree]
    have hdl : s.free.dropLast = l := by simp [hfree]
    have hfst : s.acquire.1 = a := by simp [ObjectPool.acquire, hget]
    have hsnd : s.acquire.2 =
        { s with free := s.free.dropLast, active := insert a s.active } := by
      simp [ObjectPool.acquire, hget]
    have hamem : a ∈ s.free := by simp [hfree]
    have hanotact : a ∉ s.active := hdisj a hamem
    have hanotl : a ∉ l := by
      have hnd' : (l ++ [a]).Nodup := hfree ▸ hnd
      intro h
      exact (List.nodup_append.mp hnd').2.2 h (by simp)
    refine ⟨hfst ▸ hanotact, ?_, ?_⟩
    · rw [hsnd, hdl]
      refine ⟨?_, ?_, ?_, ?_, ?_⟩
      · exact (List.nodup_append.mp (hfree ▸ hnd)).1
      · intro x hx
        simp only [Finset.mem_insert, not_or]
        exact ⟨fun h => hanotl (h ▸ hx), hdisj x (by simp [hfree, hx])⟩
      · intro x hx; exact hfb x (by simp [hfree, hx])
      · intro x hx
        rcases Finset.mem_insert.mp hx with h | hx
        · rw [h]; exact hfb a hamem
        · exact hab x hx
      · rw [Finset.card_insert_of_not_mem hanotact]
        simp only [hfree] at hcnt
        simp at hcnt ⊢
        omega
    · rw [hfst, hsnd]

lemma release_inv (obj : ℕ) (s : ObjectPool) (hInv : PoolInv s) :
    PoolInv (ObjectPool.release obj s) := by
  obtain ⟨hnd, hdisj, hfb, hab, hcnt⟩ := hInv
  unfold ObjectPool.release
  split
  case isTrue hmem =>
    refine ⟨?_, ?_, ?_, ?_, ?_⟩
    · simp only [List.nodup_append, List.nodup_cons, List.nodup_nil]
      exact ⟨hnd, ⟨by simp, by simp⟩, fun x hx => by
        simp only [List.mem_singleton]
        intro h; exact hdisj x hx (h ▸ hmem)⟩
    · intro x hx
      rcases List.mem_append.mp hx with hx | hx
      · intro h; exact hdisj x hx (Finset.mem_of_mem_erase h)
      · simp only [List.mem_singleton] at hx
        subst hx; exact Finset.not_mem_erase _ _
    · intro x hx
      rcases List.mem_append.mp hx with hx | hx
      · exact hfb x hx
      · simp only [List.mem_singleton] at hx
        subst hx; exact hab _ hmem
    · intro x hx; exact hab x (Finset.mem_of_mem_erase hx)
    · rw [Finset.card_erase_of_mem hmem]
      have : 1 ≤ s.active.card := Finset.card_pos.mpr ⟨obj, hmem⟩
      simp
      omega
  case isFalse => exact ⟨hnd, hdisj, hfb, hab, hcnt⟩

lemma runOp_inv (s : ObjectPool) (op : PoolOp) (hInv : PoolInv s) :
    PoolInv (s.runOp op) := by
  cases op with
  | acquire => exact (acquire_spec s hInv).2.1
  | release obj => exact release_inv obj s hInv

lemma run_inv (ops : List PoolOp) (s : ObjectPool) (hInv : PoolInv s) :
    PoolInv (s.run ops) := by
  induction ops generalizing s with
  | nil => exact hInv
  | cons op ops ih => exact ih _ (runOp_inv s op hInv)

lemma acquire_active_insert (s : ObjectPool) :
    s.acquire.2.active = insert s.acquire.1 s.active := by
  unfold ObjectPool.acquire
  rcases h : s.free.getLast? with _ | a <;> simp

lemma release_mem_active {x obj : ℕ} {s : ObjectPool} (hx : x ∈ s.active)
    (hne : x ≠ obj) : x ∈ (ObjectPool.release obj s).active := by
  unfold ObjectPool.release
  split
  · exact Finset.mem_erase.mpr ⟨hne, hx⟩
  · exact hx

lemma runOp_mem_active {x : ℕ} {s : ObjectPool} {op : PoolOp}
    (hx : x ∈ s.active) (hne : op ≠ PoolOp.release x) :
    x ∈ (s.runOp op).active := by
  cases op with
  | acquire =>
      rw [ObjectPool.runOp, acquire_active_insert]
      exact Finset.mem_insert_of_mem hx
  | release obj =>
      exact release_mem_active hx (fun h => hne (by rw [h]))

lemma run_mem_active {x : ℕ} {s : ObjectPool} {ops : List PoolOp}
    (hx : x ∈ s.active) (hops : PoolOp.release x ∉ ops) :
    x ∈ (s.run ops).active := by
  induction ops generalizing s with
  | nil => exact hx
  | cons op ops ih =>
      rw [ObjectPool.run, List.foldl_cons]
      exact ih (runOp_mem_active hx (fun h => hops (h ▸ List.mem_cons_self _ _)))
        (fun h => hops (List.mem_cons_of_mem _ h))

/-- C1: pool conservation.  For every initial size and every sequence of
`acquire`/`release` operations, `getStats()` satisfies
`available + active = total`, and `total` equals the number of instances
the factory has created so far (the `initialSize` eager ones, counted into
`created` by `ObjectPool.make`, plus one per `acquire` that found the free
list empty, counted by `ObjectPool.acquire`). -/
theorem pool_conservation (n : ℕ) (ops : List PoolOp) :
    ((ObjectPool.make n).run ops).getStats.available +
        ((ObjectPool.make n).run ops).getStats.active =
      ((ObjectPool.make n).run ops).getStats.total ∧
    ((ObjectPool.make n).run ops).getStats.total =
      ((ObjectPool.make n).run ops).created := by
  have hInv := run_inv ops _ (poolInv_make n)
  exact ⟨rfl, hInv.2.2.2.2⟩

/-- C2: no duplication.  With the fresh-instance factory, an object `a`
returned by some `acquire` is not returned by any later `acquire` as long
as no `release a` occurred in between (`ops₂` are the intervening
operations). -/
theorem pool_no_duplication (n : ℕ) (ops₁ ops₂ : List PoolOp)
    (hops : PoolOp.release (((ObjectPool.make n).run ops₁).acquire.1) ∉ ops₂) :
    ((((ObjectPool.make n).run ops₁).acquire.2.run ops₂).acquire.1) ≠
      ((ObjectPool.make n).run ops₁).acquire.1 := by
  have hInv₁ := run_inv ops₁ _ (poolInv_make n)
  obtain ⟨-, hInv₂, hact₂⟩ := acquire_spec _ hInv₁
  have hmem : ((ObjectPool.make n).run ops₁).acquire.1 ∈
      (((ObjectPool.make n).run ops₁).acquire.2).active := by
    rw [hact₂]; exact Finset.mem_insert_self _ _
  have hmem₃ := run_mem_active hmem hops
  have hInv₃ := run_inv ops₂ _ hInv₂
  have hfresh := (acquire_spec _ hInv₃).1
  intro heq
  rw [heq] at hfresh
  exact hfresh hmem₃

/-- Witness for C2 at a concrete input: a pool of initial size 0; the first
`acquire` creates object 0, and with no intervening release the next
`acquire` creates object 1 ≠ 0. -/
theorem pool_no_duplication_witness :
    PoolOp.release (((ObjectPool.make 0).run []).acquire.1) ∉ ([] : List PoolOp) ∧
    ((((ObjectPool.make 0).run []).acquire.2.run []).acquire.1) ≠
      ((ObjectPool.make 0).run []).acquire.1 :=
  ⟨by decide, pool_no_duplication 0 [] [] (by decide)⟩

/-- C9: idempotent release.  Releasing an object that is not in the active
set (already-released, or never created by the pool) leaves the state —
and hence the free list, the active set, `getStats()` and the reset-call
counter — unchanged, and (being a total function) raises no error. -/
theorem pool_release_noop (s : ObjectPool) (obj : ℕ) (h : obj ∉ s.active) :
    ObjectPool.release obj s = s ∧
    (ObjectPool.release obj s).getStats = s.getStats ∧
    (ObjectPool.release obj s).resets = s.resets := by
  have heq : ObjectPool.release obj s = s := by
    unfold ObjectPool.release
    rw [if_neg h]
  exact ⟨heq, by rw [heq], by rw [heq]⟩

/-- Witness for C9 at a concrete input: object 7 was never created by a
pool of size 2 and is not active; releasing it is the identity. -/
theorem pool_release_noop_witness :
    (7 ∉ (ObjectPool.make 2).active) ∧
    ObjectPool.release 7 (ObjectPool.make 2) = ObjectPool.make 2 :=
  ⟨by decide, (pool_release_noop (ObjectPool.make 2) 7 (by decide)).1⟩

/-! ## Particle system (`src/src/components/particleSystem.js`) -/

/-- A `Particle` record: the pool element of the emitter.  Fields follow
`Particle.reset()`/`Particle.update()` in the source. -/
structure Particle where
  x : ℚ
  y : ℚ
  vx : ℚ
  vy : ℚ
  ax : ℚ
  ay : ℚ
  life : ℚ
  maxLife : ℚ
  size : ℚ
  sizeEnd : ℚ
  rotation : ℚ
  rotationSpeed : ℚ
  color : List Char
  colorEnd : Option (List Char)
  alpha : ℚ
  alphaEnd : ℚ
  active : Bool
deriving DecidableEq

/-- The state `Particle.reset()` establishes; the constructor calls
`reset()`, so this is also the state of a freshly created particle. -/
def Particle.init : Particle :=
  { x := 0, y := 0, vx := 0, vy := 0, ax := 0, ay := 0,
    life := 0, maxLife := 1000, size := 5, sizeEnd := 0,
    rotation := 0, rotationSpeed := 0,
    color := "#ffffff".toList, colorEnd := none,
    alpha := 1, alphaEnd := 0, active := false }

/-- `Particle.update(deltaTime)`: return early if inactive; advance `life`
and deactivate once `life >= maxLife`; otherwise integrate velocity from
acceleration, position from the (already updated) velocity, and rotation
from rotation speed. -/
def Particle.update (deltaTime : ℚ) (p : Particle) : Particle :=
  if p.active = false then p
  else
    let life := p.life + deltaTime
    if p.maxLife ≤ life then { p with life := life, active := false }
    else
      let vx := p.vx + p.ax * (deltaTime / 1000)
      let vy := p.vy + p.ay * (deltaTime / 1000)
      { p with life := life, vx := vx, vy := vy,
               x := p.x + vx * (deltaTime / 1000),
               y := p.y + vy * (deltaTime / 1000),
               rotation := p.rotation + p.rotationSpeed * (deltaTime / 1000) }

/-- A closed `{min, max}` configuration range. -/
structure MinMax where
  min : ℚ
  max : ℚ
deriving DecidableEq

/-- A `{start, end}` interpolation pair (`end` is a Lean keyword, hence
`startV`/`endV`). -/
structure StartEnd (α : Type) where
  startV : α
  endV : α
deriving DecidableEq

/-- A 2-component `{x, y}` value (the `spread` configuration). -/
structure Vec2 where
  x : ℚ
  y : ℚ
deriving DecidableEq

/-- The emitter's per-particle generation configuration
(`this.particleConfig`). -/
structure ParticleConfig where
  life : MinMax
  speed : MinMax
  angle : MinMax
  size : StartEnd ℚ
  color : StartEnd (List Char)
  alpha : StartEnd ℚ
  gravity : ℚ
  rotation : MinMax
  spread : Vec2
deriving DecidableEq

/-- The platform environment the emitter calls into: the `Math.random()`
stream (indexed by a per-emitter call counter) and the `Math.PI` /
`Math.cos` / `Math.sin` primitives, left uninterpreted. -/
structure JsEnv where
  rand : ℕ → ℚ
  pi : ℚ
  cos : ℚ → ℚ
  sin : ℚ → ℚ

/-- The constructor's `config` object.  `none` models an absent field; the
constructor applies the JS `||` defaults (`jsOrQ`/`jsOrZ` below), under
which a present numeric `0` is falsy and therefore also replaced by the
default. -/
structure EmitterConfig where
  x : Option ℚ := none
  y : Option ℚ := none
  maxParticles : Option ℤ := none
  emissionRate : Option ℚ := none
  burst : Option ℤ := none
  duration : Option ℚ := none
  life : Option MinMax := none
  speed : Option MinMax := none
  angle : Option MinMax := none
  size : Option (StartEnd ℚ) := none
  color : Option (StartEnd (List Char)) := none
  alpha : Option (StartEnd ℚ) := none
  gravity : Option ℚ := none
  rotation : Option MinMax := none
  spread : Option Vec2 := none
  blendMode : Option String := none
  shape : Option String := none

/-- JS `v || d` for a possibly-absent number `v`: absent, or present but
`0` (falsy), yields the default `d`. -/
def jsOrQ : Option ℚ → ℚ → ℚ
  | none, d => d
  | some v, d => if v = 0 then d else v

/-- JS `v || d` for a possibly-absent integer `v`. -/
def jsOrZ : Option ℤ → ℤ → ℤ
  | none, d => d
  | some v, d => if v = 0 then d else v

/-- Emitter state.  `pool` is the backing `ObjectPool` of particle ids,
`heap` maps each id to the current `Particle` record (modelling JS object
mutation through aliased references; ids the factory has not produced yet
map to `Particle.init`, which is what `new Particle()` yields), and
`particles` is the live-particle list `this.particles`.  `seed` indexes
the `Math.random()` stream; `emitCalls` is a ghost counter of `emit()`
invocations. -/
structure ParticleEmitter where
  x : ℚ
  y : ℚ
  maxParticles : ℤ
  pool : ObjectPool
  heap : ℕ → Particle
  particles : List ℕ
  emissionRate : ℚ
  emissionAccumulator : ℚ
  burst : ℤ
  duration : ℚ
  elapsed : ℚ
  active : Bool
  particleConfig : ParticleConfig
  blendMode : String
  shape : String
  seed : ℕ
  emitCalls : ℕ

/-- The `ParticleEmitter` constructor. -/
def ParticleEmitter.ofConfig (config : EmitterConfig) : ParticleEmitter :=
  let M := jsOrZ config.maxParticles 100
  { x := jsOrQ config.x 0
    y := jsOrQ config.y 0
    maxParticles := M
    pool := ObjectPool.make M.toNat
    heap := fun _ => Particle.init
    particles := []
    emissionRate := jsOrQ config.emissionRate 10
    emissionAccumulator := 0
    burst := jsOrZ config.burst 0
    duration := jsOrQ config.duration (-1)
    elapsed := 0
    active := false
    particleConfig :=
      { life := config.life.getD ⟨500, 1000⟩
        speed := config.speed.getD ⟨50, 100⟩
        angle := config.angle.getD ⟨0, 360⟩
        size := config.size.getD ⟨10, 0⟩
        color := config.color.getD ⟨"#ffffff".toList, "#ffffff".toList⟩
        alpha := config.alpha.getD ⟨1, 0⟩
        gravity := jsOrQ config.gravity 0
        rotation := config.rotation.getD ⟨0, 0⟩
        spread := config.spread.getD ⟨0, 0⟩ }
    blendMode := config.blendMode.getD "source-over"
    shape := config.shape.getD "circle"
    seed := 0
    emitCalls := 0 }

/-- `emit()`: bump the invocation ghost; if the live list is already at
`maxParticles`, stop; otherwise acquire a particle from the pool, populate
it from the configuration and the six `Math.random()` draws (x-jitter,
y-jitter, angle, speed, lifetime, rotation speed, in source order), mark it
active and append it to the live list. -/
def ParticleEmitter.emit (env : JsEnv) (s : ParticleEmitter) : ParticleEmitter :=
  if s.maxParticles ≤ (s.particles.length : ℤ) then
    { s with emitCalls := s.emitCalls + 1 }
  else
    let pr := s.pool.acquire
    let cfg := s.particleConfig
    let r0 := env.rand s.seed
    let r1 := env.rand (s.seed + 1)
    let r2 := env.rand (s.seed + 2)
    let r3 := env.rand (s.seed + 3)
    let r4 := env.rand (s.seed + 4)
    let r5 := env.rand (s.seed + 5)
    let angle := (cfg.angle.min + r2 * (cfg.angle.max - cfg.angle.min)) * env.pi / 180
    let speed := cfg.speed.min + r3 * (cfg.speed.max - cfg.speed.min)
    let p0 := s.heap pr.1
    let p :=
      { p0 with
          x := s.x + (r0 - 1/2) * cfg.spread.x
          y := s.y + (r1 - 1/2) * cfg.spread.y
          vx := env.cos angle * speed
          vy := env.sin angle * speed
          ay := cfg.gravity
          maxLife := cfg.life.min + r4 * (cfg.life.max - cfg.life.min)
          life := 0
          size := cfg.size.startV
          sizeEnd := cfg.size.endV
          color := cfg.color.startV
          colorEnd := some cfg.color.endV
          alpha := cfg.alpha.startV
          alphaEnd := cfg.alpha.endV
          rotationSpeed := cfg.rotation.min + r5 * (cfg.rotation.max - cfg.rotation.min)
          active := true }
    { s with
        emitCalls := s.emitCalls + 1
        pool := pr.2
        heap := Function.update s.heap pr.1 p
        particles := s.particles ++ [pr.1]
        seed := s.seed + 6 }

/-- `emit()` iterated `n` times (the `start()` burst loop body). -/
def ParticleEmitter.emitN (env : JsEnv) : ℕ → ParticleEmitter → ParticleEmitter
  | 0, s => s
  | n + 1, s => ParticleEmitter.emitN env n (ParticleEmitter.emit env s)

/-- `start()`: arm the emitter, clear the elapsed timer and the rate
accumulator, and fire the burst (if positive) by calling `emit()` `burst`
times. -/
def ParticleEmitter.start (env : JsEnv) (s : ParticleEmitter) : ParticleEmitter :=
  let s1 := { s with active := true, elapsed := 0, emissionAccumulator := 0 }
  if 0 < s1.burst then ParticleEmitter.emitN env s1.burst.toNat s1 else s1

/-- `stop()`: disarm further emission. -/
def ParticleEmitter.stop (s : ParticleEmitter) : ParticleEmitter :=
  { s with active := false }

/-- One bounded unrolling of the emission `while` loop of `update()`:
while the accumulator is at least one emission interval, call `emit()` and
subtract the interval; stop in any case once the fuel runs out.  The guard
carries the call-site fact `0 < interval` (the loop is only entered when
`emissionRate > 0`; with a non-positive interval it would not terminate in
the source either). -/
def ParticleEmitter.emitIter (env : JsEnv) (interval : ℚ) :
    ℕ → ℚ → ParticleEmitter → ℚ × ParticleEmitter
  | 0, acc, s => (acc, s)
  | n + 1, acc, s =>
      if 0 < interval ∧ interval ≤ acc then
        ParticleEmitter.emitIter env interval n (acc - interval)
          (ParticleEmitter.emit env s)
      else (acc, s)

/-- The emission `while` loop of `update()`.  `⌊acc/interval⌋.toNat + 1`
(written with the kernel-reducible `Rat.floor`) strictly exceeds the number
of iterations the loop performs, so the fuel never runs out;
`emitLoop_unfold` below proves that this definition satisfies the loop's
defining equation. -/
def ParticleEmitter.emitLoop (env : JsEnv) (interval acc : ℚ)
    (s : ParticleEmitter) : ℚ × ParticleEmitter :=
  ParticleEmitter.emitIter env interval ((Rat.floor (acc / interval)).toNat + 1) acc s

lemma ratFloor_eq (q : ℚ) : Rat.floor q = ⌊q⌋ := by
  rw [Rat.floor_def', Rat.floor_def]

lemma floor_div_sub_self (acc : ℚ) {interval : ℚ} (hi : 0 < interval) :
    ⌊(acc - interval) / interval⌋ = ⌊acc / interval⌋ - 1 := by
  have hdiv : (acc - interval) / interval = acc / interval - 1 := by
    field_simp
  rw [hdiv]
  exact_mod_cast Int.floor_sub_int (acc / interval) 1

lemma emitIter_fuel (env : JsEnv) (interval : ℚ) :
    ∀ n m acc s, (⌊acc / interval⌋).toNat < n → (⌊acc / interval⌋).toNat < m →
      ParticleEmitter.emitIter env interval n acc s =
        ParticleEmitter.emitIter env interval m acc s := by
  intro n
  induction n with
  | zero => intro m acc s hn _; omega
  | succ n ih =>
      intro m acc s hn hm
      match m, hm with
      | m + 1, hm =>
        rw [ParticleEmitter.emitIter, ParticleEmitter.emitIter]
        split
        case isTrue h =>
          have hfloor := floor_div_sub_self acc h.1
          have hone : (1:ℚ) ≤ acc / interval := (one_le_div h.1).mpr h.2
          have hone' : (1:ℤ) ≤ ⌊acc / interval⌋ :=
            Int.le_floor.mpr (by exact_mod_cast hone)
          exact ih _ _ _ (by omega) (by omega)
        case isFalse h => rfl

/-- Faithfulness of `emitLoop`: it satisfies the defining equation of the
source's `while (accumulator >= interval) { emit(); accumulator -= interval }`
loop (for a positive interval, which is what every call site supplies). -/
lemma emitLoop_unfold (env : JsEnv) (interval acc : ℚ) (s : ParticleEmitter) :
    ParticleEmitter.emitLoop env interval acc s =
      if 0 < interval ∧ interval ≤ acc then
        ParticleEmitter.emitLoop env interval (acc - interval)
          (ParticleEmitter.emit env s)
      else (acc, s) := by
  unfold ParticleEmitter.emitLoop
  rw [ratFloor_eq, ratFloor_eq]
  rw [ParticleEmitter.emitIter]
  split
  case isTrue h =>
    have hfloor := floor_div_sub_self acc h.1
    have hone : (1:ℚ) ≤ acc / interval := (one_le_div h.1).mpr h.2
    have hone' : (1:ℤ) ≤ ⌊acc / interval⌋ :=
      Int.le_floor.mpr (by exact_mod_cast hone)
    exact emitIter_fuel env interval _ _ _ _ (by omega) (by omega)
  case isFalse h => rfl

/-- The backwards particle-aging loop of `update()`: iterate the live list
from its last index down to 0 (modelled by recursing on the head after
processing the tail), call `p.update(dt)` on each particle, and release and
splice out the ones that became inactive.  Returns the new live list, the
particle heap, and the pool. -/
def ParticleEmitter.ageRun (dt : ℚ) :
    List ℕ → (ℕ → Particle) → ObjectPool → List ℕ × (ℕ → Particle) × ObjectPool
  | [], h, pl => ([], h, pl)
  | id :: rest, h, pl =>
      let r := ParticleEmitter.ageRun dt rest h pl
      let p := (r.2.1 id).update dt
      let h2 := Function.update r.2.1 id p
      if p.active then (id :: r.1, h2, r.2.2)
      else if id ∈ r.2.2.active then
        (r.1, Function.update h2 id Particle.init, ObjectPool.release id r.2.2)
      else (r.1, h2, r.2.2)

/-- First block of `update(deltaTime)`: when `duration > 0`, advance the
elapsed timer and disarm the emitter once `elapsed >= duration`.  With a
non-positive (infinite) duration the block — including the `elapsed`
accumulation — is skipped entirely, exactly as in the source. -/
def ParticleEmitter.durationStep (deltaTime : ℚ) (s : ParticleEmitter) :
    ParticleEmitter :=
  if 0 < s.duration then
    let e := s.elapsed + deltaTime
    { s with elapsed := e, active := if s.duration ≤ e then false else s.active }
  else s

/-- Second block of `update(deltaTime)`: if armed and `emissionRate > 0`,
add `deltaTime` to the rate accumulator and drain it through the emission
`while` loop.  The accumulator is written back after the loop, which is
equivalent to the source's in-place mutation because `emit()` never reads
it. -/
def ParticleEmitter.emissionStep (env : JsEnv) (deltaTime : ℚ)
    (s : ParticleEmitter) : ParticleEmitter :=
  if s.active = true ∧ 0 < s.emissionRate then
    let interval := 1000 / s.emissionRate
    let r := ParticleEmitter.emitLoop env interval
      (s.emissionAccumulator + deltaTime) s
    { r.2 with emissionAccumulator := r.1 }
  else s

/-- Third block of `update(deltaTime)`: age every live particle, releasing
expired ones back to the pool (which resets them to `Particle.init` via the
reset callback inside `ageRun`). -/
def ParticleEmitter.agingStep (deltaTime : ℚ) (s : ParticleEmitter) :
    ParticleEmitter :=
  let r := ParticleEmitter.ageRun deltaTime s.particles s.heap s.pool
  { s with particles := r.1, heap := r.2.1, pool := r.2.2 }

/-- `update(deltaTime)`: the three blocks of the source method in order. -/
def ParticleEmitter.update (env : JsEnv) (deltaTime : ℚ)
    (s : ParticleEmitter) : ParticleEmitter :=
  ParticleEmitter.agingStep deltaTime
    (ParticleEmitter.emissionStep env deltaTime
      (ParticleEmitter.durationStep deltaTime s))

/-- `getParticleCount()`. -/
def ParticleEmitter.getParticleCount (s : ParticleEmitter) : ℕ :=
  s.particles.length

/-- `isComplete()`. -/
def ParticleEmitter.isComplete (s : ParticleEmitter) : Bool :=
  !s.active && s.particles.length == 0

/-- An emitter operation; the claims quantify over sequences of these.
`draw` reads the state without mutating it (see `ParticleEmitter.draw`),
so as a state transformer it is the identity. -/
inductive EOp where
  | start : EOp
  | stop : EOp
  | emit : EOp
  | update (dt : ℚ) : EOp
  | draw : EOp

/-- Perform one emitter operation. -/
def ParticleEmitter.runOp (env : JsEnv) (s : ParticleEmitter) : EOp → ParticleEmitter
  | .start => s.start env
  | .stop => s.stop
  | .emit => ParticleEmitter.emit env s
  | .update dt => ParticleEmitter.update env dt s
  | .draw => s

/-- Perform a sequence of emitter operations. -/
def ParticleEmitter.run (env : JsEnv) (s : ParticleEmitter)
    (ops : List EOp) : ParticleEmitter :=
  ops.foldl (ParticleEmitter.runOp env) s

/-- Perform a sequence of `update(dt)` calls. -/
def ParticleEmitter.runUpdates (env : JsEnv) (s : ParticleEmitter)
    (dts : List ℚ) : ParticleEmitter :=
  dts.foldl (fun t d => ParticleEmitter.update env d t) s

/-- A concrete platform environment for witnesses: every `Math.random()`
draw is 0, and the trigonometric oracles are constantly 0. -/
def jsEnv0 : JsEnv :=
  { rand := fun _ => 0, pi := 0, cos := fun _ => 0, sin := fun _ => 0 }

/-! ## Emitter lemmas -/

lemma emit_active (env : JsEnv) (s : ParticleEmitter) :
    (ParticleEmitter.emit env s).active = s.active := by
  unfold ParticleEmitter.emit; split <;> rfl

lemma emit_duration (env : JsEnv) (s : ParticleEmitter) :
    (ParticleEmitter.emit env s).duration = s.duration := by
  unfold ParticleEmitter.emit; split <;> rfl

lemma emit_emissionRate (env : JsEnv) (s : ParticleEmitter) :
    (ParticleEmitter.emit env s).emissionRate = s.emissionRate := by
  unfold ParticleEmitter.emit; split <;> rfl

lemma emit_emissionAccumulator (env : JsEnv) (s : ParticleEmitter) :
    (ParticleEmitter.emit env s).emissionAccumulator = s.emissionAccumulator := by
  unfold ParticleEmitter.emit; split <;> rfl

lemma emit_maxParticles (env : JsEnv) (s : ParticleEmitter) :
    (ParticleEmitter.emit env s).maxParticles = s.maxParticles := by
  unfold ParticleEmitter.emit; split <;> rfl

lemma emit_elapsed (env : JsEnv) (s : ParticleEmitter) :
    (ParticleEmitter.emit env s).elapsed = s.elapsed := by
  unfold ParticleEmitter.emit; split <;> rfl

lemma emit_emitCalls (env : JsEnv) (s : ParticleEmitter) :
    (ParticleEmitter.emit env s).emitCalls = s.emitCalls + 1 := by
  unfold ParticleEmitter.emit; split <;> rfl

lemma emit_particles (env : JsEnv) (s : ParticleEmitter) :
    (ParticleEmitter.emit env s).particles =
      if s.maxParticles ≤ (s.particles.length : ℤ) then s.particles
      else s.particles ++ [s.pool.acquire.1] := by
  unfold ParticleEmitter.emit; split <;> simp [*]

lemma emit_pool (env : JsEnv) (s : ParticleEmitter) :
    (ParticleEmitter.emit env s).pool =
      if s.maxParticles ≤ (s.particles.length : ℤ) then s.pool
      else s.pool.acquire.2 := by
  unfold ParticleEmitter.emit; split <;> simp [*]

lemma emit_cap (env : JsEnv) (s : ParticleEmitter)
    (h : s.maxParticles ≤ (s.particles.length : ℤ)) :
    ParticleEmitter.emit env s = { s with emitCalls := s.emitCalls + 1 } := by
  unfold ParticleEmitter.emit
  rw [if_pos h]

lemma emitN_stable (env : JsEnv) (k : ℕ) (s : ParticleEmitter) :
    (ParticleEmitter.emitN env k s).active = s.active ∧
    (ParticleEmitter.emitN env k s).duration = s.duration ∧
    (ParticleEmitter.emitN env k s).emissionRate = s.emissionRate ∧
    (ParticleEmitter.emitN env k s).emissionAccumulator = s.emissionAccumulator ∧
    (ParticleEmitter.emitN env k s).maxParticles = s.maxParticles ∧
    (ParticleEmitter.emitN env k s).elapsed = s.elapsed := by
  induction k generalizing s with
  | zero => exact ⟨rfl, rfl, rfl, rfl, rfl, rfl⟩
  | succ k ih =>
      have h := ih (ParticleEmitter.emit env s)
      rw [ParticleEmitter.emitN] at *
      exact ⟨h.1.trans (emit_active env s),
        h.2.1.trans (emit_duration env s),
        h.2.2.1.trans (emit_emissionRate env s),
        h.2.2.2.1.trans (emit_emissionAccumulator env s),
        h.2.2.2.2.1.trans (emit_maxParticles env s),
        h.2.2.2.2.2.trans (emit_elapsed env s)⟩

lemma emitN_emitCalls (env : JsEnv) (k : ℕ) (s : ParticleEmitter) :
    (ParticleEmitter.emitN env k s).emitCalls = s.emitCalls + k := by
  induction k generalizing s with
  | zero => rfl
  | succ k ih =>
      rw [ParticleEmitter.emitN, ih, emit_emitCalls]
      omega

/-- Live-list/pool consistency invariant of the emitter: the live list has
no duplicates and holds exactly the pool's active set, and the pool's own
invariant holds. -/
def EInv (s : ParticleEmitter) : Prop :=
  s.particles.Nodup ∧ (∀ x, x ∈ s.particles ↔ x ∈ s.pool.active) ∧
    PoolInv s.pool

lemma einv_ofConfig (config : EmitterConfig) :
    EInv (ParticleEmitter.ofConfig config) := by
  refine ⟨List.nodup_nil, ?_, poolInv_make _⟩
  intro x
  simp [ParticleEmitter.ofConfig, ObjectPool.make]

lemma einv_emit (env : JsEnv) (s : ParticleEmitter) (h : EInv s) :
    EInv (ParticleEmitter.emit env s) := by
  obtain ⟨hnd, hiff, hpool⟩ := h
  by_cases hcap : s.maxParticles ≤ (s.particles.length : ℤ)
  · rw [emit_cap env s hcap]
    exact ⟨hnd, hiff, hpool⟩
  · obtain ⟨hfresh, hpool', hact'⟩ := acquire_spec s.pool hpool
    have hp := emit_particles env s
    have hq := emit_pool env s
    rw [if_neg hcap] at hp hq
    have hnotin : s.pool.acquire.1 ∉ s.particles :=
      fun hmem => hfresh ((hiff _).mp hmem)
    refine ⟨?_, ?_, ?_⟩
    · rw [hp]
      exact List.Nodup.append hnd (List.nodup_singleton _)
        (by simpa [List.disjoint_singleton] using hnotin)
    · intro x
      rw [hp, hq, hact']
      simp only [List.mem_append, List.mem_singleton, Finset.mem_insert]
      constructor
      · rintro (hx | rfl)
        · exact Or.inr ((hiff x).mp hx)
        · exact Or.inl rfl
      · rintro (rfl | hx)
        · exact Or.inr rfl
        · exact Or.inl ((hiff x).mpr hx)
    · rw [hq]; exact hpool'

lemma einv_emitN (env : JsEnv) (k : ℕ) (s : ParticleEmitter) (h : EInv s) :
    EInv (ParticleEmitter.emitN env k s) := by
  induction k generalizing s with
  | zero => exact h
  | succ k ih =>
      rw [ParticleEmitter.emitN]
      exact ih _ (einv_emit env s h)

lemma emitN_length (env : JsEnv) (k : ℕ) (s : ParticleEmitter)
    (h : s.particles.length ≤ s.maxParticles.toNat) :
    (ParticleEmitter.emitN env k s).particles.length =
      min (s.particles.length + k) s.maxParticles.toNat := by
  induction k generalizing s with
  | zero =>
      show s.particles.length = min (s.particles.length + 0) s.maxParticles.toNat
      omega
  | succ k ih =>
      rw [ParticleEmitter.emitN]
      have hp := emit_particles env s
      have hM := emit_maxParticles env s
      by_cases hcap : s.maxParticles ≤ (s.particles.length : ℤ)
      · have hlen : (ParticleEmitter.emit env s).particles.length =
            s.particles.length := by rw [hp, if_pos hcap]
        have hgoal := ih (ParticleEmitter.emit env s) (by rw [hlen, hM]; exact h)
        rw [hgoal, hlen, hM]
        omega
      · have hlen : (ParticleEmitter.emit env s).particles.length =
            s.particles.length + 1 := by rw [hp, if_neg hcap]; simp
        have hle : s.particles.length + 1 ≤ s.maxParticles.toNat := by omega
        have hgoal := ih (ParticleEmitter.emit env s) (by rw [hlen, hM]; exact hle)
        rw [hgoal, hlen, hM]
        omega

lemma emitN_length_le (env : JsEnv) (k : ℕ) (s : ParticleEmitter)
    (h : (s.particles.length : ℤ) ≤ s.maxParticles) :
    ((ParticleEmitter.emitN env k s).particles.length : ℤ) ≤ s.maxParticles := by
  have h' : s.particles.length ≤ s.maxParticles.toNat := by omega
  have := emitN_length env k s h'
  omega

lemma emitIter_eq_emitN (env : JsEnv) (interval : ℚ) :
    ∀ (n : ℕ) (acc : ℚ) (s : ParticleEmitter), ∃ k : ℕ,
      ParticleEmitter.emitIter env interval n acc s =
        (acc - k * interval, ParticleEmitter.emitN env k s) := by
  intro n
  induction n with
  | zero => intro acc s; exact ⟨0, by simp [ParticleEmitter.emitIter, ParticleEmitter.emitN]⟩
  | succ n ih =>
      intro acc s
      rw [ParticleEmitter.emitIter]
      split
      case isTrue h =>
        obtain ⟨k, hk⟩ := ih (acc - interval) (ParticleEmitter.emit env s)
        refine ⟨k + 1, ?_⟩
        rw [hk, Prod.mk.injEq]
        exact ⟨by push_cast; ring, rfl⟩
      case isFalse h => exact ⟨0, by simp [ParticleEmitter.emitN]⟩

/-- The emission loop performs some number `k` of `emit()` calls and
subtracts `k` intervals from the accumulator. -/
lemma emitLoop_eq_emitN (env : JsEnv) (interval acc : ℚ) (s : ParticleEmitter) :
    ∃ k : ℕ, ParticleEmitter.emitLoop env interval acc s =
      (acc - k * interval, ParticleEmitter.emitN env k s) := by
  unfold ParticleEmitter.emitLoop
  exact emitIter_eq_emitN env interval _ acc s

lemma emitIter_spec (env : JsEnv) {interval : ℚ} (hi : 0 < interval) :
    ∀ (n : ℕ) (acc : ℚ) (s : ParticleEmitter), 0 ≤ acc →
      (⌊acc / interval⌋).toNat < n →
      ParticleEmitter.emitIter env interval n acc s =
        (acc - (⌊acc / interval⌋).toNat * interval,
          ParticleEmitter.emitN env (⌊acc / interval⌋).toNat s) := by
  intro n
  induction n with
  | zero => intro acc s _ hn; omega
  | succ n ih =>
      intro acc s hacc hn
      rw [ParticleEmitter.emitIter]
      by_cases hle : interval ≤ acc
      · rw [if_pos ⟨hi, hle⟩]
        have hone : (1:ℚ) ≤ acc / interval := (one_le_div hi).mpr hle
        have hone' : (1:ℤ) ≤ ⌊acc / interval⌋ :=
          Int.le_floor.mpr (by exact_mod_cast hone)
        have hfl := floor_div_sub_self acc hi
        have hacc' : 0 ≤ acc - interval := by linarith
        have hlt : (⌊(acc - interval) / interval⌋).toNat < n := by omega
        rw [ih (acc - interval) (ParticleEmitter.emit env s) hacc' hlt]
        have hk : (⌊(acc - interval) / interval⌋).toNat =
            (⌊acc / interval⌋).toNat - 1 := by omega
        have hk1 : (⌊acc / interval⌋).toNat = ((⌊acc / interval⌋).toNat - 1) + 1 := by
          omega
        rw [Prod.mk.injEq]
        constructor
        · rw [hk]
          rw [Nat.cast_sub (by omega)]
          push_cast
          ring
        · rw [hk]
          conv_rhs => rw [hk1]
          rw [ParticleEmitter.emitN]
      · rw [if_neg (by tauto)]
        have h0 : ⌊acc / interval⌋ = 0 := by
          rw [Int.floor_eq_zero_iff]
          constructor
          · exact div_nonneg hacc hi.le
          · exact (div_lt_one hi).mpr (lt_of_not_le hle)
        rw [h0]
        simp [ParticleEmitter.emitN]

/-- Exact characterization of the emission loop for a positive interval and
non-negative accumulator: it calls `emit()` exactly `⌊acc/interval⌋` times
and leaves the fractional remainder in the accumulator. -/
lemma emitLoop_spec (env : JsEnv) {interval acc : ℚ} (hi : 0 < interval)
    (hacc : 0 ≤ acc) (s : ParticleEmitter) :
    ParticleEmitter.emitLoop env interval acc s =
      (acc - (⌊acc / interval⌋).toNat * interval,
        ParticleEmitter.emitN env (⌊acc / interval⌋).toNat s) := by
  unfold ParticleEmitter.emitLoop
  rw [ratFloor_eq]
  exact emitIter_spec env hi _ acc s hacc (by omega)

lemma ageRun_subset (dt : ℚ) :
    ∀ (ids : List ℕ) (h : ℕ → Particle) (pl : ObjectPool) (x : ℕ),
      x ∈ (ParticleEmitter.ageRun dt ids h pl).1 → x ∈ ids := by
  intro ids
  induction ids with
  | nil =>
      intro h pl x hx
      simp only [ParticleEmitter.ageRun, List.not_mem_nil] at hx
  | cons id rest ih =>
      intro h pl x hx
      simp only [ParticleEmitter.ageRun] at hx
      split at hx
      · rcases List.mem_cons.mp hx with rfl | hx
        · exact List.mem_cons_self _ _
        · exact List.mem_cons_of_mem _ (ih h pl x hx)
      · split at hx
        · exact List.mem_cons_of_mem _ (ih h pl x hx)
        · exact List.mem_cons_of_mem _ (ih h pl x hx)

lemma ageRun_len_le (dt : ℚ) :
    ∀ (ids : List ℕ) (h : ℕ → Particle) (pl : ObjectPool),
      (ParticleEmitter.ageRun dt ids h pl).1.length ≤ ids.length := by
  intro ids
  induction ids with
  | nil => intro h pl; simp [ParticleEmitter.ageRun]
  | cons id rest ih =>
      intro h pl
      simp only [ParticleEmitter.ageRun]
      split
      · simpa using ih h pl
      · split
        · exact le_trans (ih h pl) (by simp)
        · exact le_trans (ih h pl) (by simp)

lemma ageRun_heap_outside (dt : ℚ) :
    ∀ (ids : List ℕ) (h : ℕ → Particle) (pl : ObjectPool) (x : ℕ),
      x ∉ ids → (ParticleEmitter.ageRun dt ids h pl).2.1 x = h x := by
  intro ids
  induction ids with
  | nil => intro h pl x _; rfl
  | cons id rest ih =>
      intro h pl x hx
      have hxid : x ≠ id := fun he => hx (he ▸ List.mem_cons_self _ _)
      have hxrest : x ∉ rest := fun hm => hx (List.mem_cons_of_mem _ hm)
      simp only [ParticleEmitter.ageRun]
      split
      · simp only [Function.update_noteq hxid]
        exact ih h pl x hxrest
      · split
        · simp only [Function.update_noteq hxid]
          exact ih h pl x hxrest
        · simp only [Function.update_noteq hxid]
          exact ih h pl x hxrest

lemma release_active_of_mem {obj : ℕ} {s : ObjectPool} (h : obj ∈ s.active) :
    (ObjectPool.release obj s).active = s.active.erase obj := by
  unfold ObjectPool.release
  rw [if_pos h]

lemma ageRun_spec (dt : ℚ) :
    ∀ (ids : List ℕ) (h : ℕ → Particle) (pl : ObjectPool),
      ids.Nodup → (∀ x ∈ ids, x ∈ pl.active) → PoolInv pl →
      (ParticleEmitter.ageRun dt ids h pl).1.Nodup ∧
      PoolInv (ParticleEmitter.ageRun dt ids h pl).2.2 ∧
      (∀ x, x ∈ (ParticleEmitter.ageRun dt ids h pl).2.2.active ↔
        (x ∈ pl.active ∧
          (x ∈ ids → x ∈ (ParticleEmitter.ageRun dt ids h pl).1))) := by
  intro ids
  induction ids with
  | nil =>
      intro h pl _ _ hpl
      refine ⟨List.nodup_nil, hpl, ?_⟩
      intro x
      simp [ParticleEmitter.ageRun]
  | cons id rest ih =>
      intro h pl hnd hmem hpl
      have hidrest : id ∉ rest := (List.nodup_cons.mp hnd).1
      have hndrest : rest.Nodup := (List.nodup_cons.mp hnd).2
      have hmemrest : ∀ x ∈ rest, x ∈ pl.active :=
        fun x hx => hmem x (List.mem_cons_of_mem _ hx)
      obtain ⟨Knd, Kinv, Kiff⟩ := ih h pl hndrest hmemrest hpl
      have hsub : ∀ x ∈ (ParticleEmitter.ageRun dt rest h pl).1, x ∈ rest :=
        fun x hx => ageRun_subset dt rest h pl x hx
      have hidK : id ∈ (ParticleEmitter.ageRun dt rest h pl).2.2.active :=
        (Kiff id).mpr ⟨hmem id (List.mem_cons_self _ _), fun hc => absurd hc hidrest⟩
      simp only [ParticleEmitter.ageRun]
      split
      · refine ⟨?_, Kinv, ?_⟩
        · exact List.nodup_cons.mpr ⟨fun hc => hidrest (hsub id hc), Knd⟩
        · intro x
          dsimp only
          rw [Kiff x]
          by_cases hxid : x = id
          · subst hxid
            simp [hidrest]
          · simp only [List.mem_cons, hxid, false_or]
      · refine ⟨Knd, release_inv _ _ Kinv, ?_⟩
        intro x
        dsimp only
        rw [release_active_of_mem hidK, Finset.mem_erase, Kiff x]
        by_cases hxid : x = id
        · subst hxid
          constructor
          · rintro ⟨hne, -⟩
            exact absurd rfl hne
          · rintro ⟨-, himp⟩
            exact absurd (hsub _ (himp (List.mem_cons_self _ _))) hidrest
        · constructor
          · rintro ⟨-, hact, himp⟩
            refine ⟨hact, fun hm => himp ?_⟩
            rcases List.mem_cons.mp hm with he | hm
            · exact absurd he hxid
            · exact hm
          · rintro ⟨hact, himp⟩
            exact ⟨hxid, hact, fun hm => himp (List.mem_cons_of_mem _ hm)⟩

lemma ageRun_heap_keep (dt : ℚ) :
    ∀ (ids : List ℕ) (h : ℕ → Particle) (pl : ObjectPool), ids.Nodup →
      ∀ x ∈ (ParticleEmitter.ageRun dt ids h pl).1,
        (ParticleEmitter.ageRun dt ids h pl).2.1 x = (h x).update dt ∧
        ((h x).update dt).active = true := by
  intro ids
  induction ids with
  | nil =>
      intro h pl _ x hx
      simp [ParticleEmitter.ageRun] at hx
  | cons id rest ih =>
      intro h pl hnd x hx
      have hidrest : id ∉ rest := (List.nodup_cons.mp hnd).1
      have hndrest : rest.Nodup := (List.nodup_cons.mp hnd).2
      have houtside : (ParticleEmitter.ageRun dt rest h pl).2.1 id = h id :=
        ageRun_heap_outside dt rest h pl id hidrest
      simp only [ParticleEmitter.ageRun] at hx ⊢
      split at hx
      case isTrue hp =>
        rcases List.mem_cons.mp hx with rfl | hx
        · rw [if_pos hp]
          dsimp only
          constructor
          · simp only [Function.update_same]
            rw [houtside]
          · rw [← houtside]
            exact hp
        · have hxrest : x ∈ rest := ageRun_subset dt rest h pl x hx
          have hxid : x ≠ id := fun he => hidrest (he ▸ hxrest)
          rw [if_pos hp]
          dsimp only
          constructor
          · rw [Function.update_noteq hxid]
            exact (ih h pl hndrest x hx).1
          · exact (ih h pl hndrest x hx).2
      case isFalse hp =>
        have hx' : x ∈ (ParticleEmitter.ageRun dt rest h pl).1 := by
          split at hx <;> exact hx
        have hx := hx'
        have hxrest : x ∈ rest := ageRun_subset dt rest h pl x hx
        have hxid : x ≠ id := fun he => hidrest (he ▸ hxrest)
        rw [if_neg hp]
        split
        · dsimp only
          constructor
          · rw [Function.update_noteq hxid, Function.update_noteq hxid]
            exact (ih h pl hndrest x hx).1
          · exact (ih h pl hndrest x hx).2
        · dsimp only
          constructor
          · rw [Function.update_noteq hxid]
            exact (ih h pl hndrest x hx).1
          · exact (ih h pl hndrest x hx).2


lemma durationStep_particles (dt : ℚ) (s : ParticleEmitter) :
    (ParticleEmitter.durationStep dt s).particles = s.particles := by
  unfold ParticleEmitter.durationStep; split <;> rfl

lemma durationStep_heap (dt : ℚ) (s : ParticleEmitter) :
    (ParticleEmitter.durationStep dt s).heap = s.heap := by
  unfold ParticleEmitter.durationStep; split <;> rfl

lemma durationStep_pool (dt : ℚ) (s : ParticleEmitter) :
    (ParticleEmitter.durationStep dt s).pool = s.pool := by
  unfold ParticleEmitter.durationStep; split <;> rfl

lemma durationStep_maxParticles (dt : ℚ) (s : ParticleEmitter) :
    (ParticleEmitter.durationStep dt s).maxParticles = s.maxParticles := by
  unfold ParticleEmitter.durationStep; split <;> rfl

lemma durationStep_duration (dt : ℚ) (s : ParticleEmitter) :
    (ParticleEmitter.durationStep dt s).duration = s.duration := by
  unfold ParticleEmitter.durationStep; split <;> rfl

lemma durationStep_emissionRate (dt : ℚ) (s : ParticleEmitter) :
    (ParticleEmitter.durationStep dt s).emissionRate = s.emissionRate := by
  unfold ParticleEmitter.durationStep; split <;> rfl

lemma durationStep_emissionAccumulator (dt : ℚ) (s : ParticleEmitter) :
    (ParticleEmitter.durationStep dt s).emissionAccumulator =
      s.emissionAccumulator := by
  unfold ParticleEmitter.durationStep; split <;> rfl

lemma durationStep_emitCalls (dt : ℚ) (s : ParticleEmitter) :
    (ParticleEmitter.durationStep dt s).emitCalls = s.emitCalls := by
  unfold ParticleEmitter.durationStep; split <;> rfl

lemma durationStep_elapsed (dt : ℚ) (s : ParticleEmitter) :
    (ParticleEmitter.durationStep dt s).elapsed =
      if 0 < s.duration then s.elapsed + dt else s.elapsed := by
  unfold ParticleEmitter.durationStep
  split <;> simp [*]

lemma durationStep_active (dt : ℚ) (s : ParticleEmitter) :
    (ParticleEmitter.durationStep dt s).active =
      if 0 < s.duration ∧ s.duration ≤ s.elapsed + dt then false
      else s.active := by
  unfold ParticleEmitter.durationStep
  split
  case isTrue hd =>
    dsimp only
    by_cases hc : s.duration ≤ s.elapsed + dt <;> simp [hd, hc]
  case isFalse hd => simp [hd]

lemma emissionStep_ex (env : JsEnv) (dt : ℚ) (s : ParticleEmitter) :
    ∃ k : ℕ,
      (ParticleEmitter.emissionStep env dt s).particles =
        (ParticleEmitter.emitN env k s).particles ∧
      (ParticleEmitter.emissionStep env dt s).heap =
        (ParticleEmitter.emitN env k s).heap ∧
      (ParticleEmitter.emissionStep env dt s).pool =
        (ParticleEmitter.emitN env k s).pool ∧
      (ParticleEmitter.emissionStep env dt s).emitCalls = s.emitCalls + k ∧
      (ParticleEmitter.emissionStep env dt s).active = s.active ∧
      (ParticleEmitter.emissionStep env dt s).duration = s.duration ∧
      (ParticleEmitter.emissionStep env dt s).emissionRate = s.emissionRate ∧
      (ParticleEmitter.emissionStep env dt s).maxParticles = s.maxParticles ∧
      (ParticleEmitter.emissionStep env dt s).elapsed = s.elapsed := by
  unfold ParticleEmitter.emissionStep
  split
  case isTrue hcond =>
    obtain ⟨k, hk⟩ := emitLoop_eq_emitN env (1000 / s.emissionRate)
      (s.emissionAccumulator + dt) s
    refine ⟨k, ?_⟩
    dsimp only
    rw [hk]
    obtain ⟨h1, h2, h3, -, h5, -⟩ := emitN_stable env k s
    exact ⟨rfl, rfl, rfl, emitN_emitCalls env k s, h1, h2, h3, h5, by
      simpa using (emitN_stable env k s).2.2.2.2.2⟩
  case isFalse hcond =>
    exact ⟨0, rfl, rfl, rfl, by simp [ParticleEmitter.emitN], rfl, rfl, rfl,
      rfl, rfl⟩

lemma agingStep_scalars (dt : ℚ) (s : ParticleEmitter) :
    (ParticleEmitter.agingStep dt s).active = s.active ∧
    (ParticleEmitter.agingStep dt s).duration = s.duration ∧
    (ParticleEmitter.agingStep dt s).emissionRate = s.emissionRate ∧
    (ParticleEmitter.agingStep dt s).emissionAccumulator =
      s.emissionAccumulator ∧
    (ParticleEmitter.agingStep dt s).maxParticles = s.maxParticles ∧
    (ParticleEmitter.agingStep dt s).elapsed = s.elapsed ∧
    (ParticleEmitter.agingStep dt s).emitCalls = s.emitCalls :=
  ⟨rfl, rfl, rfl, rfl, rfl, rfl, rfl⟩

lemma einv_of_fields {s' s : ParticleEmitter}
    (h1 : s'.particles = s.particles) (h2 : s'.pool = s.pool) (h : EInv s) :
    EInv s' := by
  unfold EInv at *
  rw [h1, h2]
  exact h

lemma einv_agingStep (dt : ℚ) (s : ParticleEmitter) (h : EInv s) :
    EInv (ParticleEmitter.agingStep dt s) := by
  obtain ⟨hnd, hiff, hpool⟩ := h
  have hmem : ∀ x ∈ s.particles, x ∈ s.pool.active :=
    fun x hx => (hiff x).mp hx
  obtain ⟨Knd, Kinv, Kiff⟩ := ageRun_spec dt s.particles s.heap s.pool hnd hmem hpool
  refine ⟨Knd, ?_, Kinv⟩
  intro x
  constructor
  · intro hx
    have hxids : x ∈ s.particles :=
      ageRun_subset dt s.particles s.heap s.pool x hx
    exact (Kiff x).mpr ⟨(hiff x).mp hxids, fun _ => hx⟩
  · intro hx
    obtain ⟨hxact, himp⟩ := (Kiff x).mp hx
    exact himp ((hiff x).mpr hxact)

lemma einv_durationStep (dt : ℚ) (s : ParticleEmitter) (h : EInv s) :
    EInv (ParticleEmitter.durationStep dt s) :=
  einv_of_fields (durationStep_particles dt s) (durationStep_pool dt s) h

lemma einv_emissionStep (env : JsEnv) (dt : ℚ) (s : ParticleEmitter)
    (h : EInv s) : EInv (ParticleEmitter.emissionStep env dt s) := by
  obtain ⟨k, h1, -, h3, -⟩ := emissionStep_ex env dt s
  exact einv_of_fields h1 h3 (einv_emitN env k s h)

lemma einv_update (env : JsEnv) (dt : ℚ) (s : ParticleEmitter) (h : EInv s) :
    EInv (ParticleEmitter.update env dt s) :=
  einv_agingStep _ _ (einv_emissionStep env dt _ (einv_durationStep dt s h))

lemma einv_start (env : JsEnv) (s : ParticleEmitter) (h : EInv s) :
    EInv (ParticleEmitter.start env s) := by
  unfold ParticleEmitter.start
  dsimp only
  split
  · exact einv_emitN env _ _ (einv_of_fields rfl rfl h)
  · exact einv_of_fields rfl rfl h

lemma einv_stop (s : ParticleEmitter) (h : EInv s) :
    EInv (ParticleEmitter.stop s) :=
  einv_of_fields rfl rfl h

lemma einv_runOp (env : JsEnv) (s : ParticleEmitter) (op : EOp) (h : EInv s) :
    EInv (ParticleEmitter.runOp env s op) := by
  cases op with
  | start => exact einv_start env s h
  | stop => exact einv_stop s h
  | emit => exact einv_emit env s h
  | update dt => exact einv_update env dt s h
  | draw => exact h

lemma einv_run (env : JsEnv) (ops : List EOp) (s : ParticleEmitter)
    (h : EInv s) : EInv (ParticleEmitter.run env s ops) := by
  induction ops generalizing s with
  | nil => exact h
  | cons op ops ih => exact ih _ (einv_runOp env s op h)

/-- C5: live-list / pool consistency.  After construction and after every
sequence of completed `start()`, `stop()`, `emit()`, `update(dt)` and
`draw()` calls, the emitter's live-particle list has no duplicates and
holds exactly the backing pool's active set. -/
theorem emitter_live_pool_consistency (config : EmitterConfig) (env : JsEnv)
    (ops : List EOp) :
    ((ParticleEmitter.ofConfig config).run env ops).particles.Nodup ∧
    (∀ x, x ∈ ((ParticleEmitter.ofConfig config).run env ops).particles ↔
      x ∈ ((ParticleEmitter.ofConfig config).run env ops).pool.active) := by
  have h := einv_run env ops _ (einv_ofConfig config)
  exact ⟨h.1, h.2.1⟩

lemma emit_count_le (env : JsEnv) (s : ParticleEmitter)
    (h : (s.particles.length : ℤ) ≤ s.maxParticles) :
    (((ParticleEmitter.emit env s).particles.length : ℤ)) ≤
      (ParticleEmitter.emit env s).maxParticles := by
  rw [emit_maxParticles, emit_particles]
  by_cases hcap : s.maxParticles ≤ (s.particles.length : ℤ)
  · rw [if_pos hcap]; exact h
  · rw [if_neg hcap]
    simp only [List.length_append, List.length_singleton]
    push_cast
    omega

lemma start_count (env : JsEnv) (s : ParticleEmitter)
    (h : (s.particles.length : ℤ) ≤ s.maxParticles) :
    ((ParticleEmitter.start env s).particles.length : ℤ) ≤ s.maxParticles := by
  unfold ParticleEmitter.start
  dsimp only
  split
  · exact emitN_length_le env _ _ h
  · exact h

lemma agingStep_count_le (dt : ℚ) (s : ParticleEmitter) :
    (ParticleEmitter.agingStep dt s).particles.length ≤ s.particles.length :=
  ageRun_len_le dt s.particles s.heap s.pool

lemma update_count (env : JsEnv) (dt : ℚ) (s : ParticleEmitter)
    (h : (s.particles.length : ℤ) ≤ s.maxParticles) :
    ((ParticleEmitter.update env dt s).particles.length : ℤ) ≤
      s.maxParticles := by
  unfold ParticleEmitter.update
  have hd1 : ((ParticleEmitter.durationStep dt s).particles.length : ℤ) ≤
      (ParticleEmitter.durationStep dt s).maxParticles := by
    rw [durationStep_particles, durationStep_maxParticles]; exact h
  obtain ⟨k, hp, -, -, -, -, -, -, hM, -⟩ :=
    emissionStep_ex env dt (ParticleEmitter.durationStep dt s)
  have he : ((ParticleEmitter.emissionStep env dt
      (ParticleEmitter.durationStep dt s)).particles.length : ℤ) ≤
      s.maxParticles := by
    rw [hp]
    have := emitN_length_le env k _ hd1
    rwa [durationStep_maxParticles] at this
  have ha := agingStep_count_le dt
    (ParticleEmitter.emissionStep env dt (ParticleEmitter.durationStep dt s))
  omega

lemma runOp_maxParticles (env : JsEnv) (s : ParticleEmitter) (op : EOp) :
    (ParticleEmitter.runOp env s op).maxParticles = s.maxParticles := by
  cases op with
  | start =>
      show (ParticleEmitter.start env s).maxParticles = s.maxParticles
      unfold ParticleEmitter.start
      dsimp only
      split
      · exact (emitN_stable env _ _).2.2.2.2.1
      · rfl
  | stop => rfl
  | emit => exact emit_maxParticles env s
  | update dt =>
      show (ParticleEmitter.update env dt s).maxParticles = s.maxParticles
      unfold ParticleEmitter.update
      obtain ⟨k, -, -, -, -, -, -, -, hM, -⟩ :=
        emissionStep_ex env dt (ParticleEmitter.durationStep dt s)
      have ha := (agingStep_scalars dt (ParticleEmitter.emissionStep env dt
        (ParticleEmitter.durationStep dt s))).2.2.2.2.1
      rw [ha, hM, durationStep_maxParticles]
  | draw => rfl

lemma runOp_count (env : JsEnv) (s : ParticleEmitter) (op : EOp)
    (h : (s.particles.length : ℤ) ≤ s.maxParticles) :
    ((ParticleEmitter.runOp env s op).particles.length : ℤ) ≤
      s.maxParticles := by
  cases op with
  | start => exact start_count env s h
  | stop => exact h
  | emit =>
      have := emit_count_le env s h
      rwa [emit_maxParticles] at this
  | update dt => exact update_count env dt s h
  | draw => exact h

lemma run_count (env : JsEnv) (ops : List EOp) (s : ParticleEmitter)
    (h : (s.particles.length : ℤ) ≤ s.maxParticles) :
    ((ParticleEmitter.run env s ops).particles.length : ℤ) ≤
      s.maxParticles := by
  induction ops generalizing s with
  | nil => exact h
  | cons op ops ih =>
      have h1 := runOp_count env s op h
      have h2 := runOp_maxParticles env s op
      have := ih (ParticleEmitter.runOp env s op) (by rw [h2]; exact h1)
      rw [h2] at this
      exact this

/-- C4 (amended): capacity ceiling for `maxParticles = M ≥ 1`.  Under every
sequence of `start()`/`stop()`/`emit()`/`update()`/`draw()` calls the live
count never exceeds `M`, and `emit()` at capacity is a no-op (it changes
nothing but the invocation ghost).  The amendment restricts the claim to
`M ≥ 1`: the constructor's `config.maxParticles || 100` treats `M = 0` as
unset (see the counterexample). -/
theorem emitter_capacity (config : EmitterConfig) (M : ℤ) (env : JsEnv)
    (ops : List EOp) (hM : config.maxParticles = some M) (h1 : 1 ≤ M) :
    (((ParticleEmitter.ofConfig config).run env ops).particles.length : ℤ)
        ≤ M ∧
    (∀ t : ParticleEmitter, t.maxParticles ≤ (t.particles.length : ℤ) →
      ParticleEmitter.emit env t = { t with emitCalls := t.emitCalls + 1 }) := by
  have hMM : (ParticleEmitter.ofConfig config).maxParticles = M := by
    show jsOrZ config.maxParticles 100 = M
    rw [hM]
    show (if M = 0 then (100:ℤ) else M) = M
    rw [if_neg (by omega)]
  constructor
  · have hpart : (ParticleEmitter.ofConfig config).particles = [] := rfl
    have h0 : (((ParticleEmitter.ofConfig config)).particles.length : ℤ) ≤
        (ParticleEmitter.ofConfig config).maxParticles := by
      rw [hpart, hMM]
      simp
      omega
    have := run_count env ops _ h0
    rwa [hMM] at this
  · intro t ht
    exact emit_cap env t ht

/-- Witness for C4 at a concrete input: capacity 2, three `emit()` calls,
live count stays at most 2. -/
theorem emitter_capacity_witness :
    (((ParticleEmitter.ofConfig { maxParticles := some 2 }).run jsEnv0
        [EOp.emit, EOp.emit, EOp.emit]).particles.length : ℤ) ≤ 2 :=
  (emitter_capacity { maxParticles := some 2 } 2 jsEnv0
    [EOp.emit, EOp.emit, EOp.emit] rfl (by decide)).1

/-- Counterexample to C4 as stated: an emitter constructed with
`maxParticles = 0` gets the default capacity 100 (`0 || 100` in the
constructor), so a single `emit()` makes the live count 1, exceeding `M = 0`
— and that `emit()` at live count `= M` was not a no-op. -/
theorem emitter_capacity_counterexample :
    (ParticleEmitter.emit jsEnv0
      (ParticleEmitter.ofConfig { maxParticles := some 0 })).particles.length
      = 1 := by decide

/-- C7 (amended): an emitter constructed with `maxParticles = 0` is not
inert; the constructor's `config.maxParticles || 100` treats the falsy `0`
as unset, so the emitter gets the default capacity 100 and a single
`emit()` makes one particle live. -/
theorem emitter_zero_capacity_amended (config : EmitterConfig) (env : JsEnv)
    (hM : config.maxParticles = some 0) :
    (ParticleEmitter.ofConfig config).maxParticles = 100 ∧
    (ParticleEmitter.emit env
      (ParticleEmitter.ofConfig config)).particles.length = 1 := by
  have hMM : (ParticleEmitter.ofConfig config).maxParticles = 100 := by
    show jsOrZ config.maxParticles 100 = 100
    rw [hM]
    rfl
  refine ⟨hMM, ?_⟩
  have hpart : (ParticleEmitter.ofConfig config).particles = [] := rfl
  rw [emit_particles, if_neg]
  · rw [hpart]
    rfl
  · rw [hMM, hpart]
    decide

/-- Witness for C7's amended claim at a concrete input. -/
theorem emitter_zero_capacity_amended_witness :
    (ParticleEmitter.ofConfig { maxParticles := some 0 }).maxParticles = 100 ∧
    (ParticleEmitter.emit jsEnv0
      (ParticleEmitter.ofConfig { maxParticles := some 0 })).particles.length
      = 1 :=
  emitter_zero_capacity_amended { maxParticles := some 0 } jsEnv0 rfl

/-- Counterexample to C7 as stated: with `maxParticles = 0` (and a burst of
1) a single `start()` makes one particle live — the emitter is not inert. -/
theorem emitter_zero_capacity_counterexample :
    ParticleEmitter.getParticleCount (ParticleEmitter.start jsEnv0
      (ParticleEmitter.ofConfig { maxParticles := some 0, burst := some 1 }))
      = 1 := by decide

lemma start_length (env : JsEnv) (s : ParticleEmitter)
    (h : s.particles.length ≤ s.maxParticles.toNat) :
    (ParticleEmitter.start env s).particles.length =
      min (s.particles.length + s.burst.toNat) s.maxParticles.toNat := by
  unfold ParticleEmitter.start
  dsimp only
  split
  case isTrue hb => exact emitN_length env _ _ h
  case isFalse hb =>
    have hz : s.burst.toNat = 0 := by omega
    rw [hz]
    show s.particles.length = min (s.particles.length + 0) s.maxParticles.toNat
    omega

/-- C6 (amended): with `burst = N > 0` and `emissionRate = 0` in the
configuration, `start()` immediately makes exactly `min(N, maxParticles)`
particles live; however the constructor's `config.emissionRate || 10`
treats the falsy `0` as unset, so the stored rate is the default 10 and
subsequent `update(dt)` calls are not emission-free (see the
counterexample). -/
theorem emitter_burst_amended (config : EmitterConfig) (env : JsEnv) (N : ℤ)
    (hb : config.burst = some N) (hN : 0 < N)
    (hr : config.emissionRate = some 0) :
    (ParticleEmitter.ofConfig config).emissionRate = 10 ∧
    ParticleEmitter.getParticleCount
        (ParticleEmitter.start env (ParticleEmitter.ofConfig config)) =
      min N.toNat (ParticleEmitter.ofConfig config).maxParticles.toNat := by
  have hrate : (ParticleEmitter.ofConfig config).emissionRate = 10 := by
    show jsOrQ config.emissionRate 10 = 10
    rw [hr]
    show (if (0:ℚ) = 0 then 10 else 0) = 10
    rw [if_pos rfl]
  have hburst : (ParticleEmitter.ofConfig config).burst = N := by
    show jsOrZ config.burst 0 = N
    rw [hb]
    show (if N = 0 then (0:ℤ) else N) = N
    rw [if_neg (by omega)]
  refine ⟨hrate, ?_⟩
  have hpart : (ParticleEmitter.ofConfig config).particles = [] := rfl
  have h0 : (ParticleEmitter.ofConfig config).particles.length ≤
      (ParticleEmitter.ofConfig config).maxParticles.toNat := by
    rw [hpart]
    simp
  have hlen := start_length env _ h0
  rw [ParticleEmitter.getParticleCount, hlen, hpart, hburst]
  simp

/-- Witness for C6's amended claim at a concrete input: burst 3, configured
rate 0; `start()` makes `min(3, 100) = 3` particles live and the stored
rate is 10. -/
theorem emitter_burst_amended_witness :
    (ParticleEmitter.ofConfig
      { emissionRate := some 0, burst := some 3 }).emissionRate = 10 ∧
    ParticleEmitter.getParticleCount (ParticleEmitter.start jsEnv0
        (ParticleEmitter.ofConfig { emissionRate := some 0, burst := some 3 }))
      = min (3:ℤ).toNat (ParticleEmitter.ofConfig
          { emissionRate := some 0, burst := some 3 }).maxParticles.toNat :=
  emitter_burst_amended { emissionRate := some 0, burst := some 3 } jsEnv0 3
    rfl (by decide) rfl

/-- Counterexample to C6 as stated: with `burst = 3` and
`emissionRate = 0`, `start()` makes 3 particles live, but a subsequent
`update(200)` emits two more (the stored rate is the default 10, i.e. one
per 100 ms) — not zero. -/
theorem emitter_burst_counterexample :
    ParticleEmitter.getParticleCount (ParticleEmitter.start jsEnv0
        (ParticleEmitter.ofConfig { emissionRate := some 0, burst := some 3 }))
      = 3 ∧
    ParticleEmitter.getParticleCount (ParticleEmitter.update jsEnv0 200
        (ParticleEmitter.start jsEnv0 (ParticleEmitter.ofConfig
          { emissionRate := some 0, burst := some 3 })))
      = 5 :=
  ⟨by decide, by with_unfolding_all decide⟩

lemma emissionStep_inactive (env : JsEnv) (dt : ℚ) (s : ParticleEmitter)
    (h : s.active = false) : ParticleEmitter.emissionStep env dt s = s := by
  unfold ParticleEmitter.emissionStep
  rw [if_neg]
  rintro ⟨h1, -⟩
  rw [h] at h1
  exact Bool.false_ne_true h1

lemma update_elapsed_eq (env : JsEnv) (dt : ℚ) (s : ParticleEmitter) :
    (ParticleEmitter.update env dt s).elapsed =
      (ParticleEmitter.durationStep dt s).elapsed := by
  unfold ParticleEmitter.update
  obtain ⟨k, -, -, -, -, -, -, -, -, he⟩ :=
    emissionStep_ex env dt (ParticleEmitter.durationStep dt s)
  rw [(agingStep_scalars _ _).2.2.2.2.2.1, he]

/-- C8 (amended): `elapsed` accumulates by `dt` only when `duration > 0`
(the source skips the whole block — including the accumulation — for an
infinite duration); when `duration > 0` and `elapsed + dt` reaches it, the
emitter is disarmed, that `update` call performs no `emit()` call, and the
existing particles still age by `dt`; and once disarmed the emitter stays
disarmed with no further emission. -/
theorem duration_accounting_amended (env : JsEnv) (dt : ℚ)
    (s : ParticleEmitter) :
    (0 < s.duration →
      (ParticleEmitter.update env dt s).elapsed = s.elapsed + dt) ∧
    (s.duration ≤ 0 →
      (ParticleEmitter.update env dt s).elapsed = s.elapsed) ∧
    (0 < s.duration → s.duration ≤ s.elapsed + dt →
      (ParticleEmitter.update env dt s).active = false ∧
      (ParticleEmitter.update env dt s).emitCalls = s.emitCalls ∧
      (s.particles.Nodup →
        ∀ id ∈ (ParticleEmitter.update env dt s).particles,
          (ParticleEmitter.update env dt s).heap id = (s.heap id).update dt)) ∧
    (s.active = false →
      (ParticleEmitter.update env dt s).active = false ∧
      (ParticleEmitter.update env dt s).emitCalls = s.emitCalls) := by
  have hskip : ∀ hact : (ParticleEmitter.durationStep dt s).active = false,
      ParticleEmitter.update env dt s =
        ParticleEmitter.agingStep dt (ParticleEmitter.durationStep dt s) := by
    intro hact
    unfold ParticleEmitter.update
    rw [emissionStep_inactive env dt _ hact]
  refine ⟨?_, ?_, ?_, ?_⟩
  · intro hd
    rw [update_elapsed_eq, durationStep_elapsed, if_pos hd]
  · intro hd
    rw [update_elapsed_eq, durationStep_elapsed, if_neg (not_lt.mpr hd)]
  · intro hd hcross
    have hact : (ParticleEmitter.durationStep dt s).active = false := by
      rw [durationStep_active, if_pos ⟨hd, hcross⟩]
    have hu := hskip hact
    refine ⟨?_, ?_, ?_⟩
    · rw [hu, (agingStep_scalars _ _).1, hact]
    · rw [hu, (agingStep_scalars _ _).2.2.2.2.2.2, durationStep_emitCalls]
    · intro hnd id hid
      rw [hu] at hid ⊢
      unfold ParticleEmitter.agingStep at hid ⊢
      dsimp only at hid ⊢
      rw [durationStep_particles, durationStep_heap, durationStep_pool] at hid ⊢
      exact (ageRun_heap_keep dt s.particles s.heap s.pool hnd id hid).1
  · intro ha
    have hact : (ParticleEmitter.durationStep dt s).active = false := by
      rw [durationStep_active]
      split
      · rfl
      · exact ha
    have hu := hskip hact
    constructor
    · rw [hu, (agingStep_scalars _ _).1, hact]
    · rw [hu, (agingStep_scalars _ _).2.2.2.2.2.2, durationStep_emitCalls]

/-- Witness for C8's amended claim at a concrete input: a started emitter
with `duration = 50`; `update(60)` accumulates `elapsed` to 60 and disarms
the emitter. -/
theorem duration_accounting_amended_witness :
    (ParticleEmitter.update jsEnv0 60 (ParticleEmitter.start jsEnv0
        (ParticleEmitter.ofConfig { duration := some 50 }))).elapsed
      = (ParticleEmitter.start jsEnv0
          (ParticleEmitter.ofConfig { duration := some 50 })).elapsed + 60 ∧
    (ParticleEmitter.update jsEnv0 60 (ParticleEmitter.start jsEnv0
        (ParticleEmitter.ofConfig { duration := some 50 }))).active = false :=
  ⟨(duration_accounting_amended jsEnv0 60 _).1 (by with_unfolding_all decide),
   ((duration_accounting_amended jsEnv0 60 _).2.2.1
     (by with_unfolding_all decide) (by with_unfolding_all decide)).1⟩

/-- Counterexample to C8 as stated: with the default infinite duration
(`duration = -1`), `update(100)` leaves `elapsed` at 0 — the elapsed timer
does not accumulate "regardless of whether duration is finite". -/
theorem duration_accounting_counterexample :
    (ParticleEmitter.update jsEnv0 100
      (ParticleEmitter.ofConfig {})).elapsed = 0 ∧
    (ParticleEmitter.update jsEnv0 100
      (ParticleEmitter.ofConfig {})).elapsed ≠ 100 := by
  with_unfolding_all decide

lemma emissionStep_spec (env : JsEnv) (dt : ℚ) (s : ParticleEmitter)
    (ha : s.active = true) (hr : 0 < s.emissionRate)
    (hacc : 0 ≤ s.emissionAccumulator + dt) :
    (ParticleEmitter.emissionStep env dt s).emitCalls =
      s.emitCalls + (⌊(s.emissionAccumulator + dt) /
        (1000 / s.emissionRate)⌋).toNat ∧
    (ParticleEmitter.emissionStep env dt s).emissionAccumulator =
      (s.emissionAccumulator + dt) -
        (⌊(s.emissionAccumulator + dt) / (1000 / s.emissionRate)⌋).toNat *
          (1000 / s.emissionRate) := by
  unfold ParticleEmitter.emissionStep
  rw [if_pos ⟨ha, hr⟩]
  dsimp only
  have hi : 0 < 1000 / s.emissionRate := div_pos (by norm_num) hr
  rw [emitLoop_spec env hi hacc]
  exact ⟨emitN_emitCalls env _ s, rfl⟩

lemma durationStep_skip (dt : ℚ) (s : ParticleEmitter) (hd : s.duration ≤ 0) :
    ParticleEmitter.durationStep dt s = s := by
  unfold ParticleEmitter.durationStep
  rw [if_neg (not_lt.mpr hd)]

lemma update_spec_inf (env : JsEnv) (dt : ℚ) (s : ParticleEmitter)
    (hd : s.duration ≤ 0) (ha : s.active = true) (hr : 0 < s.emissionRate)
    (hacc : 0 ≤ s.emissionAccumulator + dt) :
    (ParticleEmitter.update env dt s).emitCalls =
      s.emitCalls + (⌊(s.emissionAccumulator + dt) /
        (1000 / s.emissionRate)⌋).toNat ∧
    (ParticleEmitter.update env dt s).emissionAccumulator =
      (s.emissionAccumulator + dt) -
        (⌊(s.emissionAccumulator + dt) / (1000 / s.emissionRate)⌋).toNat *
          (1000 / s.emissionRate) ∧
    (ParticleEmitter.update env dt s).active = true ∧
    (ParticleEmitter.update env dt s).duration = s.duration ∧
    (ParticleEmitter.update env dt s).emissionRate = s.emissionRate := by
  unfold ParticleEmitter.update
  rw [durationStep_skip dt s hd]
  obtain ⟨hcalls, haccN⟩ := emissionStep_spec env dt s ha hr hacc
  obtain ⟨k, -, -, -, -, hactx, hdurx, hratex, -, -⟩ := emissionStep_ex env dt s
  have hsc := agingStep_scalars dt (ParticleEmitter.emissionStep env dt s)
  exact ⟨hsc.2.2.2.2.2.2 ▸ hcalls, hsc.2.2.2.1 ▸ haccN,
    hsc.1.trans (hactx.trans ha), hsc.2.1.trans hdurx, hsc.2.2.1.trans hratex⟩

lemma sub_floor_bounds {i A : ℚ} (hi : 0 < i) (hA : 0 ≤ A) :
    0 ≤ A - ((⌊A / i⌋).toNat : ℚ) * i ∧
    A - ((⌊A / i⌋).toNat : ℚ) * i < i := by
  have hfl0 : 0 ≤ ⌊A / i⌋ := Int.floor_nonneg.mpr (div_nonneg hA hi.le)
  have hcast : ((⌊A / i⌋).toNat : ℚ) = ((⌊A / i⌋ : ℤ) : ℚ) := by
    exact_mod_cast congrArg (fun z : ℤ => (z : ℚ)) (Int.toNat_of_nonneg hfl0)
  rw [hcast]
  constructor
  · have h1 : ((⌊A / i⌋ : ℤ) : ℚ) ≤ A / i := Int.floor_le _
    have h2 : ((⌊A / i⌋ : ℤ) : ℚ) * i ≤ A := (le_div_iff₀ hi).mp h1
    linarith
  · have h1 : A / i < ((⌊A / i⌋ : ℤ) : ℚ) + 1 := Int.lt_floor_add_one _
    have h2 : A < (((⌊A / i⌋ : ℤ) : ℚ) + 1) * i := (div_lt_iff₀ hi).mp h1
    nlinarith

lemma runUpdates_calls (env : JsEnv) :
    ∀ (dts : List ℚ) (s : ParticleEmitter),
      s.active = true → s.duration ≤ 0 → 0 < s.emissionRate →
      0 ≤ s.emissionAccumulator →
      s.emissionAccumulator < 1000 / s.emissionRate →
      (∀ d ∈ dts, 0 ≤ d) →
      ((ParticleEmitter.runUpdates env s dts).emitCalls : ℤ) =
        s.emitCalls +
          ⌊(s.emissionAccumulator + dts.sum) / (1000 / s.emissionRate)⌋ := by
  intro dts
  induction dts with
  | nil =>
      intro s ha hd hr hacc0 hacci hdts
      have hfl : ⌊(s.emissionAccumulator + ([] : List ℚ).sum) /
          (1000 / s.emissionRate)⌋ = 0 := by
        rw [List.sum_nil, add_zero, Int.floor_eq_zero_iff]
        have hi : 0 < 1000 / s.emissionRate := div_pos (by norm_num) hr
        constructor
        · exact div_nonneg hacc0 hi.le
        · exact (div_lt_one hi).mpr hacci
      rw [hfl]
      simp [ParticleEmitter.runUpdates]
  | cons d rest ih =>
      intro s ha hd hr hacc0 hacci hdts
      have hd0 : 0 ≤ d := hdts d (List.mem_cons_self _ _)
      have hA : 0 ≤ s.emissionAccumulator + d := by linarith
      have hi : 0 < 1000 / s.emissionRate := div_pos (by norm_num) hr
      have hine : (1000 / s.emissionRate) ≠ 0 := ne_of_gt hi
      obtain ⟨hcalls, haccN, hact, hdur, hrate⟩ :=
        update_spec_inf env d s hd ha hr hA
      have hbounds := sub_floor_bounds hi hA
      have hstep : ParticleEmitter.runUpdates env s (d :: rest) =
          ParticleEmitter.runUpdates env (ParticleEmitter.update env d s) rest :=
        rfl
      have hih := ih (ParticleEmitter.update env d s) hact
        (by rw [hdur]; exact hd) (by rw [hrate]; exact hr)
        (by rw [haccN]; exact hbounds.1)
        (by rw [haccN, hrate]; exact hbounds.2)
        (fun x hx => hdts x (List.mem_cons_of_mem _ hx))
      rw [hstep, hih, hcalls, haccN, hrate, List.sum_cons]
      have hK0 : 0 ≤ ⌊(s.emissionAccumulator + d) / (1000 / s.emissionRate)⌋ :=
        Int.floor_nonneg.mpr (div_nonneg hA hi.le)
      have hcast : (((⌊(s.emissionAccumulator + d) /
          (1000 / s.emissionRate)⌋).toNat : ℚ)) =
          ((⌊(s.emissionAccumulator + d) / (1000 / s.emissionRate)⌋ : ℤ) : ℚ) := by
        exact_mod_cast congrArg (fun z : ℤ => (z : ℚ)) (Int.toNat_of_nonneg hK0)
      have hrew : (s.emissionAccumulator + d -
            ((⌊(s.emissionAccumulator + d) / (1000 / s.emissionRate)⌋).toNat : ℚ) *
              (1000 / s.emissionRate) + rest.sum) / (1000 / s.emissionRate) =
          (s.emissionAccumulator + d + rest.sum) / (1000 / s.emissionRate) -
            ((⌊(s.emissionAccumulator + d) / (1000 / s.emissionRate)⌋ : ℤ) : ℚ) := by
        rw [hcast]
        field_simp
        ring
      rw [hrew, Int.floor_sub_int]
      have harg : s.emissionAccumulator + (d + rest.sum) =
          s.emissionAccumulator + d + rest.sum := by ring
      rw [harg]
      push_cast [Int.toNat_of_nonneg hK0]
      ring

/-- C3: emission-rate convergence.  For an emitter that is armed with an
infinite duration (`duration <= 0`, so it stays Active), a stored
`emissionRate = R > 0` and a clear rate accumulator, feeding any partition
of a total time `T` into non-negative `dt` chunks produces exactly
`⌊R·T/1000⌋` `emit()` invocations, independently of the chunking.  (Exact
equality is stronger than the claimed `± 1` tolerance; the claim's
live-count-below-capacity hypothesis is not needed because `emit()`
invocations are counted whether or not the capacity guard fires.) -/
theorem emission_rate_exact (env : JsEnv) (s : ParticleEmitter)
    (dts : List ℚ) (hact : s.active = true) (hdur : s.duration ≤ 0)
    (hR : 0 < s.emissionRate) (hacc : s.emissionAccumulator = 0)
    (hdt : ∀ d ∈ dts, 0 ≤ d) :
    ((ParticleEmitter.runUpdates env s dts).emitCalls : ℤ) =
      s.emitCalls + ⌊dts.sum * s.emissionRate / 1000⌋ := by
  have hi : 0 < 1000 / s.emissionRate := div_pos (by norm_num) hR
  have h := runUpdates_calls env dts s hact hdur hR
    (by rw [hacc]) (by rw [hacc]; exact hi) hdt
  rw [h, hacc, zero_add, div_div_eq_mul_div]

/-- Witness for C3 at a concrete input: a freshly started default emitter
(rate 10/s, infinite duration), fed `dt` chunks 33 + 33 + 34 = 100 ms;
the number of `emit()` invocations is `⌊100·10/1000⌋ = 1`. -/
theorem emission_rate_exact_witness :
    ((ParticleEmitter.runUpdates jsEnv0 (ParticleEmitter.start jsEnv0
        (ParticleEmitter.ofConfig {})) [33, 33, 34]).emitCalls : ℤ) =
      (ParticleEmitter.start jsEnv0
        (ParticleEmitter.ofConfig {})).emitCalls +
        ⌊([33, 33, 34] : List ℚ).sum *
          (ParticleEmitter.start jsEnv0
            (ParticleEmitter.ofConfig {})).emissionRate / 1000⌋ ∧
    ((ParticleEmitter.runUpdates jsEnv0 (ParticleEmitter.start jsEnv0
        (ParticleEmitter.ofConfig {})) [33, 33, 34]).emitCalls : ℤ) = 1 :=
  ⟨emission_rate_exact jsEnv0 _ [33, 33, 34] rfl
      (by with_unfolding_all decide) (by with_unfolding_all decide) rfl
      (by with_unfolding_all decide),
   by with_unfolding_all decide⟩

/-! ## Color interpolation (`_lerpColor` / `_hexToRgb`) and `draw` -/

/-- `_lerp(a, b, t) = a + (b - a) * t`. -/
def ParticleEmitter.lerp (a b t : ℚ) : ℚ := a + (b - a) * t

/-- A character matched by the regex class `[a-f\d]` with the `i` flag:
a decimal digit or a hex letter of either case. -/
def isHexDigitChar (c : Char) : Bool :=
  ('0' ≤ c && c ≤ '9') || ('a' ≤ c && c ≤ 'f') || ('A' ≤ c && c ≤ 'F')

/-- Value of one hex digit, as `parseInt(·, 16)` assigns it. -/
def hexDigitVal (c : Char) : ℕ :=
  if '0' ≤ c && c ≤ '9' then c.toNat - '0'.toNat
  else if 'a' ≤ c && c ≤ 'f' then c.toNat - 'a'.toNat + 10
  else if 'A' ≤ c && c ≤ 'F' then c.toNat - 'A'.toNat + 10
  else 0

/-- The regex prefix `#?`: consume one leading `'#'` if present.  (`'#'` is
not in `[a-f\d]`, so backtracking over the optional `#` can never rescue a
failed match, and this greedy reading is exact.) -/
def stripHash (s : List Char) : List Char :=
  match s with
  | c :: rest => if c = '#' then rest else c :: rest
  | [] => []

/-- `_hexToRgb(hex)`: the anchored regex
`/^#?([a-f\d]{2})([a-f\d]{2})([a-f\d]{2})$/i` followed by
`parseInt(group, 16)` on the three groups; on no match, opaque white. -/
def ParticleEmitter.hexToRgb (hex : List Char) : ℕ × ℕ × ℕ :=
  match stripHash hex with
  | [c1, c2, c3, c4, c5, c6] =>
      if isHexDigitChar c1 && isHexDigitChar c2 && isHexDigitChar c3 &&
          isHexDigitChar c4 && isHexDigitChar c5 && isHexDigitChar c6 then
        (16 * hexDigitVal c1 + hexDigitVal c2,
         16 * hexDigitVal c3 + hexDigitVal c4,
         16 * hexDigitVal c5 + hexDigitVal c6)
      else (255, 255, 255)
  | _ => (255, 255, 255)

/-- JS `Math.round(x) = ⌊x + 1/2⌋` (half rounds up), written with the
kernel-reducible `Rat.floor`. -/
def jsRound (x : ℚ) : ℤ := Rat.floor (x + 1/2)

/-- `_lerpColor(colorA, colorB, t)`: parse both colors, interpolate each
component, round, and format the `rgb(r,g,b)` template string. -/
def ParticleEmitter.lerpColor (colorA colorB : List Char) (t : ℚ) : String :=
  let a := ParticleEmitter.hexToRgb colorA
  let b := ParticleEmitter.hexToRgb colorB
  let r := jsRound (ParticleEmitter.lerp a.1 b.1 t)
  let g := jsRound (ParticleEmitter.lerp a.2.1 b.2.1 t)
  let bl := jsRound (ParticleEmitter.lerp a.2.2 b.2.2 t)
  "rgb(" ++ toString r ++ "," ++ toString g ++ "," ++ toString bl ++ ")"

/-- One rendered particle: the arguments `draw(ctx)` hands to the drawing
surface for it. -/
structure RenderCmd where
  x : ℚ
  y : ℚ
  rotation : ℚ
  size : ℚ
  alpha : ℚ
  color : String
  shape : String

/-- `draw(ctx)`: for each live particle, interpolate size, alpha and (when
an end color is set) color by the particle's progress and emit one render
command.  It reads the emitter state without mutating it — its type makes
the purity requirement of the spec explicit. -/
def ParticleEmitter.draw (s : ParticleEmitter) : List RenderCmd :=
  s.particles.map (fun id =>
    let p := s.heap id
    let progress := p.life / p.maxLife
    { x := p.x
      y := p.y
      rotation := p.rotation
      size := ParticleEmitter.lerp p.size p.sizeEnd progress
      alpha := ParticleEmitter.lerp p.alpha p.alphaEnd progress
      color := match p.colorEnd with
        | some ce => ParticleEmitter.lerpColor p.color ce progress
        | none => String.mk p.color
      shape := s.shape })

/-- Modelled from the spec's words for the refinement check of C10: a color
string is well-formed iff it is six case-insensitive hex digits with an
optional leading `#`. -/
def specIsHexColor (s : List Char) : Bool :=
  let core := if s.head? = some '#' then s.tail else s
  core.length == 6 && core.all isHexDigitChar

/-- Modelled from the spec's words: parse a well-formed `#rrggbb` string
into its RGB triple; treat anything else as opaque white `(255,255,255)`. -/
def specColor (s : List Char) : ℕ × ℕ × ℕ :=
  let core := if s.head? = some '#' then s.tail else s
  if specIsHexColor s then
    (16 * hexDigitVal (core.getD 0 '0') + hexDigitVal (core.getD 1 '0'),
     16 * hexDigitVal (core.getD 2 '0') + hexDigitVal (core.getD 3 '0'),
     16 * hexDigitVal (core.getD 4 '0') + hexDigitVal (core.getD 5 '0'))
  else (255, 255, 255)

/-- Modelled from the spec's words: componentwise linear interpolation of
the two parsed colors by `t`, rounded, formatted as `rgb(r,g,b)`. -/
def specLerpColor (ca cb : List Char) (t : ℚ) : String :=
  let a := specColor ca
  let b := specColor cb
  "rgb(" ++ toString (jsRound (ParticleEmitter.lerp a.1 b.1 t)) ++ "," ++
    toString (jsRound (ParticleEmitter.lerp a.2.1 b.2.1 t)) ++ "," ++
    toString (jsRound (ParticleEmitter.lerp a.2.2 b.2.2 t)) ++ ")"

lemma stripHash_eq (s : List Char) :
    stripHash s = if s.head? = some '#' then s.tail else s := by
  cases s with
  | nil => rfl
  | cons c r =>
      by_cases h : c = '#'
      · subst h; simp [stripHash]
      · simp [stripHash, h]

lemma hexToRgb_eq_specColor (s : List Char) :
    ParticleEmitter.hexToRgb s = specColor s := by
  unfold ParticleEmitter.hexToRgb specColor specIsHexColor
  rw [← stripHash_eq]
  rcases h : stripHash s with _ |
    ⟨c1, _ | ⟨c2, _ | ⟨c3, _ | ⟨c4, _ | ⟨c5, _ | ⟨c6, _ | ⟨c7, rest⟩⟩⟩⟩⟩⟩⟩ <;>
    simp only [h, List.length_cons, List.length_nil, List.all_cons,
      List.all_nil, Bool.and_true, Bool.and_eq_true, beq_iff_eq,
      List.getD_cons_zero, List.getD_cons_succ]
  · simp
  · simp
  · simp
  · simp
  · simp
  · simp
  · simp [and_assoc]
  · have hlen : rest.length + 1 + 1 + 1 + 1 + 1 + 1 + 1 ≠ 6 := by omega
    simp [hlen]

/-- C10: lenient color parsing.  `_lerpColor` computes exactly the
spec-level interpolation (parse each string as an optional-`#`,
case-insensitive `rrggbb` hex triple; componentwise linear interpolation by
`t`; `rgb(r,g,b)` output), and every string that is not of that shape parses
to opaque white `(255,255,255)`.  Both functions are total, so no error is
ever raised. -/
theorem lerp_color_lenient (ca cb : List Char) (t : ℚ) :
    ParticleEmitter.lerpColor ca cb t = specLerpColor ca cb t ∧
    (specIsHexColor ca = false →
      ParticleEmitter.hexToRgb ca = (255, 255, 255)) := by
  constructor
  · unfold ParticleEmitter.lerpColor specLerpColor
    rw [hexToRgb_eq_specColor ca, hexToRgb_eq_specColor cb]
  · intro hff
    rw [hexToRgb_eq_specColor ca]
    unfold specColor
    simp [hff]

/-- Witness for C10 at a concrete input: `"oops"` is not a hex color and
parses to white; the interpolation of `"oops"` with `"#102030"` agrees with
the spec-level computation. -/
theorem lerp_color_lenient_witness :
    specIsHexColor ("oops".toList) = false ∧
    ParticleEmitter.hexToRgb ("oops".toList) = (255, 255, 255) ∧
    ParticleEmitter.lerpColor ("oops".toList) ("#102030".toList) 0 =
      specLerpColor ("oops".toList) ("#102030".toList) 0 :=
  ⟨by decide,
   (lerp_color_lenient ("oops".toList) ("#102030".toList) 0).2 (by decide),
   (lerp_color_lenient ("oops".toList) ("#102030".toList) 0).1⟩
